import Mathlib

/-!
Verification of the catalog table-element model
(`pkg/sql/catalog/table_elements.go`).

The Go code is shallowly embedded: the `Column` and `Index` interface
values are modelled as records of the boolean and numeric attributes the
functions under study actually read; the Go `error` type as consumed by
the iteration helpers is modelled as an inductive with the distinguished
`iterutil.StopIteration` sentinel; functions that can panic (out-of-range
slice indexing) return `Option` results, with `none` standing for the
panic.
-/

namespace TableElements

/-- Go `error` values as seen by the iteration helpers: either the
`iterutil.StopIteration()` sentinel, or any other error (identified here
by a numeric code). `none : Option GoError` models a nil Go error. -/
inductive GoError : Type where
  | stopIteration : GoError
  | failure : Nat → GoError
deriving DecidableEq

/-- Model of `iterutil.Done(err)`: whether a non-nil error is the early-stop sentinel. -/
def iterutilDone : GoError → Bool
  | .stopIteration => true
  | .failure _ => false

/-- A `catalog.Column` interface value, restricted to the attributes read
by the functions under study: `IsVirtual`, `Adding`, `Dropped`,
`ColumnDesc().HasNullDefault()`, `HasDefault`, `IsNullable`, `IsComputed`,
`GetID`, `Ordinal`, and the user-defined type metadata version reached
through `GetType().TypeMeta.Version`. -/
structure Column : Type where
  isVirtual : Bool
  adding : Bool
  dropped : Bool
  hasNullDefault : Bool
  hasDefault : Bool
  isNullable : Bool
  isComputed : Bool
  id : Nat
  ordinal : Nat
  typeMetaVersion : Nat
deriving DecidableEq

/-- A `catalog.Index` interface value, restricted to the attributes read
by `isIndexInSearchSet` and the traversal helpers: `Primary`, `Adding`,
`Dropped`, plus `GetID` to tell indexes apart. -/
structure Index : Type where
  primary : Bool
  adding : Bool
  dropped : Bool
  id : Nat
deriving DecidableEq

/-- Model of `catalog.IndexOpts`: the configurable search-set for index traversal. -/
structure IndexOpts : Type where
  nonPhysicalPrimaryIndex : Bool
  addMutations : Bool
  dropMutations : Bool
deriving DecidableEq

/-- The slice of a `catalog.TableDescriptor` consumed by the functions in
`table_elements.go`: `AllIndexes()`, `IsPhysicalTable()`,
`UserDefinedTypeColumns()` and `AllMutations()` (mutations are opaque
here; only their number matters to `HasConcurrentSchemaChanges`). -/
structure TableDescriptor : Type where
  allIndexes : List Index
  isPhysicalTable : Bool
  userDefinedTypeColumns : List Column
  allMutations : List Nat
deriving DecidableEq

/-- Embedding of `isIndexInSearchSet` from `table_elements.go`. -/
def isIndexInSearchSet (desc : TableDescriptor) (opts : IndexOpts) (idx : Index) : Bool :=
  if !opts.nonPhysicalPrimaryIndex && idx.primary && !desc.isPhysicalTable then false
  else if !opts.addMutations && idx.adding then false
  else if !opts.dropMutations && idx.dropped then false
  else true

/-- The unexported `forEachIndex` helper: iterate a slice, treating the
`iterutil.StopIteration` sentinel as success and propagating any other
error. -/
def forEachIndex : List Index → (Index → Option GoError) → Option GoError
  | [], _ => none
  | idx :: rest, f =>
    match f idx with
    | some e => if iterutilDone e then none else some e
    | none => forEachIndex rest f

/-- The elements on which the `forEachIndex` loop invokes its callback,
in order (an observer of the same loop, used to state visit order). -/
def forEachIndexVisited : List Index → (Index → Option GoError) → List Index
  | [], _ => []
  | idx :: rest, f =>
    match f idx with
    | some _ => [idx]
    | none => idx :: forEachIndexVisited rest f

/-- The loop body of exported `ForEachIndex`: same as `forEachIndex` but
skipping indexes outside the search set. -/
def ForEachIndexLoop (desc : TableDescriptor) (opts : IndexOpts) :
    List Index → (Index → Option GoError) → Option GoError
  | [], _ => none
  | idx :: rest, f =>
    if !isIndexInSearchSet desc opts idx then ForEachIndexLoop desc opts rest f
    else
      match f idx with
      | some e => if iterutilDone e then none else some e
      | none => ForEachIndexLoop desc opts rest f

/-- Embedding of `ForEachIndex` from `table_elements.go`. -/
def ForEachIndex (desc : TableDescriptor) (opts : IndexOpts)
    (f : Index → Option GoError) : Option GoError :=
  ForEachIndexLoop desc opts desc.allIndexes f

/-- The unexported `findIndex` helper: first element of a slice passing
the test, `none` (Go `nil`) otherwise. -/
def findIndex : List Index → (Index → Bool) → Option Index
  | [], _ => none
  | idx :: rest, test => if test idx then some idx else findIndex rest test

/-- The loop of exported `FindIndex`: like `findIndex` but skipping
indexes outside the search set. -/
def FindIndexLoop (desc : TableDescriptor) (opts : IndexOpts) :
    List Index → (Index → Bool) → Option Index
  | [], _ => none
  | idx :: rest, test =>
    if !isIndexInSearchSet desc opts idx then FindIndexLoop desc opts rest test
    else if test idx then some idx else FindIndexLoop desc opts rest test

/-- Embedding of `FindIndex` from `table_elements.go`. -/
def FindIndex (desc : TableDescriptor) (opts : IndexOpts) (test : Index → Bool) : Option Index :=
  FindIndexLoop desc opts desc.allIndexes test

/-- Embedding of `ColumnNeedsBackfill` from `table_elements.go`. -/
def ColumnNeedsBackfill (col : Column) : Bool :=
  if col.isVirtual then false
  else if col.dropped then true
  else if col.hasNullDefault then false
  else col.hasDefault || !col.isNullable || col.isComputed

/-- Embedding of `HasConcurrentSchemaChanges` from `table_elements.go`:
`len(table.AllMutations()) > 0`. -/
def HasConcurrentSchemaChanges (table : TableDescriptor) : Bool :=
  decide (0 < table.allMutations.length)

/-- The loop of `UserDefinedTypeColsHaveSameVersion`: walks the first
descriptor's user-defined-type columns with a running position `i` and
indexes the second descriptor's list (`otherCols[i]` in Go) at that
position; the Go code panics when `i` is out of range, modelled by
`none`. -/
def udtLoop : List Column → List Column → Nat → Option Bool
  | [], _, _ => some true
  | thisCol :: rest, otherCols, i =>
    match otherCols[i]? with
    | none => none
    | some other =>
      if thisCol.typeMetaVersion ≠ other.typeMetaVersion then some false
      else udtLoop rest otherCols (i + 1)

/-- Embedding of `UserDefinedTypeColsHaveSameVersion` from `table_elements.go`. -/
def UserDefinedTypeColsHaveSameVersion (desc otherDesc : TableDescriptor) : Option Bool :=
  udtLoop desc.userDefinedTypeColumns otherDesc.userDefinedTypeColumns 0

/-- The user-defined-type metadata version recorded at position `i` of a
column list, `none` when `i` is out of range. -/
def verAt (l : List Column) (i : Nat) : Option Nat :=
  (l[i]?).map Column.typeMetaVersion

/-- Model of `catalog.TableColMap`, given as its entry list; `Set` prepends so
that a later `Set` for the same key shadows an earlier one under
`lookup`, matching Go map overwrite semantics. -/
structure TableColMap : Type where
  entries : List (Nat × Nat)
deriving DecidableEq

/-- Embedding of `TableColMap.Set`. -/
def TableColMap.Set (m : TableColMap) (k v : Nat) : TableColMap :=
  ⟨(k, v) :: m.entries⟩

/-- Embedding of `TableColMap.Get`. -/
def TableColMap.Get (m : TableColMap) (k : Nat) : Option Nat :=
  m.entries.lookup k

/-- Embedding of `ColumnIDToOrdinalMap` from `table_elements.go`. -/
def ColumnIDToOrdinalMap (columns : List Column) : TableColMap :=
  columns.foldl (fun m col => m.Set col.id col.ordinal) ⟨[]⟩

/-- Modelled from the spec: the direction of a mutation (the
`descpb.DescriptorMutation` direction; the implementing descriptor
wrappers are outside the sources under study). -/
inductive MutationDirection : Type where
  | add : MutationDirection
  | drop : MutationDirection
deriving DecidableEq

/-- Modelled from the spec: the sub-phase of an in-flight mutation —
`delete-only`, `write-and-delete-only`, `backfilling` or `merging`. -/
inductive MutationPhase : Type where
  | deleteOnly : MutationPhase
  | writeAndDeleteOnly : MutationPhase
  | backfilling : MutationPhase
  | merging : MutationPhase
deriving DecidableEq

/-- Modelled from the spec: the mutation status attached to every table
element (`TableElementMaybeMutation`); the concrete column/index wrapper
types implementing it live outside the sources under study. An element
is either public or queued as a mutation with a job ordinal, a
direction, a sub-phase and a rollback flag; mutation ids are issued
starting from 1 (0 is the invalid sentinel), represented here as the
successor of the job ordinal. -/
inductive ElementStatus : Type where
  | public : ElementStatus
  | mutation : Nat → MutationDirection → MutationPhase → Bool → ElementStatus
deriving DecidableEq

/-- Sentinel `descpb.InvalidMutationID`, the zero value. -/
def InvalidMutationID : Nat := 0

/-- Accessor `IsMutation` of the status model. -/
def ElementStatus.IsMutation : ElementStatus → Bool
  | .public => false
  | .mutation _ _ _ _ => true

/-- Accessor `MutationID` of the status model: the job id when in a mutation, the
invalid sentinel otherwise. -/
def ElementStatus.MutationID : ElementStatus → Nat
  | .public => InvalidMutationID
  | .mutation jobOrdinal _ _ _ => jobOrdinal + 1

/-- Accessor `Public` of the status model: an element is public iff it is not a
mutation. -/
def ElementStatus.Public (e : ElementStatus) : Bool :=
  !e.IsMutation

/-- Accessor `DeleteOnly` of the status model. -/
def ElementStatus.DeleteOnly : ElementStatus → Bool
  | .mutation _ _ .deleteOnly _ => true
  | _ => false

/-- Accessor `WriteAndDeleteOnly` of the status model. -/
def ElementStatus.WriteAndDeleteOnly : ElementStatus → Bool
  | .mutation _ _ .writeAndDeleteOnly _ => true
  | _ => false

/-- Accessor `Backfilling` of the status model. -/
def ElementStatus.Backfilling : ElementStatus → Bool
  | .mutation _ _ .backfilling _ => true
  | _ => false

/-- Accessor `Merging` of the status model. -/
def ElementStatus.Merging : ElementStatus → Bool
  | .mutation _ _ .merging _ => true
  | _ => false

/-- Accessor `Adding` of the status model. -/
def ElementStatus.Adding : ElementStatus → Bool
  | .mutation _ .add _ _ => true
  | _ => false

/-- Accessor `Dropped` of the status model. -/
def ElementStatus.Dropped : ElementStatus → Bool
  | .mutation _ .drop _ _ => true
  | _ => false

/-- Modelled from the spec: the raw shape of a table descriptor as
documented at `Index.Ordinal` and `Column.Ordinal` in
`table_elements.go` — one primary index, then the public non-primary
indexes, then the mutation indexes in mutation-queue order; public
columns followed by mutation columns in queue order. The `tabledesc`
cache that materialises `AllIndexes()`/`AllColumns()` is outside the
sources under study. -/
structure RawTableDescriptor : Type where
  primaryIndex : Index
  publicNonPrimaryIndexes : List Index
  mutationIndexes : List Index
  publicColumns : List Column
  mutationColumns : List Column
deriving DecidableEq

/-- View `AllIndexes()` in canonical ordinal order: primary first, then
public non-primary, then mutation indexes. -/
def RawTableDescriptor.AllIndexes (d : RawTableDescriptor) : List Index :=
  d.primaryIndex :: (d.publicNonPrimaryIndexes ++ d.mutationIndexes)

/-- View `AllColumns()` in canonical ordinal order: public columns first,
then mutation columns. -/
def RawTableDescriptor.AllColumns (d : RawTableDescriptor) : List Column :=
  d.publicColumns ++ d.mutationColumns

/-- C1: `ColumnNeedsBackfill` returns false for virtual columns; otherwise
true for columns in a drop mutation; otherwise false when the default is
exactly NULL; otherwise true iff the column has a default expression, or
is non-nullable, or is computed. -/
theorem columnNeedsBackfill_spec (col : Column) :
    (col.isVirtual = true → ColumnNeedsBackfill col = false) ∧
    (col.isVirtual = false → col.dropped = true → ColumnNeedsBackfill col = true) ∧
    (col.isVirtual = false → col.dropped = false → col.hasNullDefault = true →
      ColumnNeedsBackfill col = false) ∧
    (col.isVirtual = false → col.dropped = false → col.hasNullDefault = false →
      (ColumnNeedsBackfill col = true ↔
        (col.hasDefault = true ∨ col.isNullable = false ∨ col.isComputed = true))) := by
  obtain ⟨v, a, d, nd, hd, nl, c, i, o, t⟩ := col
  cases v <;> cases d <;> cases nd <;> cases hd <;> cases nl <;> cases c <;>
    simp [ColumnNeedsBackfill]

/-- Witness for C1: a virtual column needs no backfill. -/
theorem columnNeedsBackfill_spec_witness :
    ColumnNeedsBackfill ⟨true, false, false, false, false, true, false, 1, 0, 0⟩ = false :=
  (columnNeedsBackfill_spec ⟨true, false, false, false, false, true, false, 1, 0, 0⟩).1 rfl

/-- C3: an index is in the configurable search set iff it is not a primary
index of a non-physical table with the corresponding option unset, not an
add-mutation with add-mutations unset, and not a drop-mutation with
drop-mutations unset; on a physical table the (public) primary index is
always in the search set. -/
theorem isIndexInSearchSet_spec (desc : TableDescriptor) (opts : IndexOpts) (idx : Index) :
    (isIndexInSearchSet desc opts idx = true ↔
      (¬(idx.primary = true ∧ desc.isPhysicalTable = false ∧
          opts.nonPhysicalPrimaryIndex = false) ∧
       ¬(idx.adding = true ∧ opts.addMutations = false) ∧
       ¬(idx.dropped = true ∧ opts.dropMutations = false))) ∧
    (desc.isPhysicalTable = true → idx.primary = true → idx.adding = false →
      idx.dropped = false → isIndexInSearchSet desc opts idx = true) := by
  cases h1 : idx.primary <;> cases h2 : idx.adding <;> cases h3 : idx.dropped <;>
    cases h4 : desc.isPhysicalTable <;> cases h5 : opts.nonPhysicalPrimaryIndex <;>
    cases h6 : opts.addMutations <;> cases h7 : opts.dropMutations <;>
    simp_all [isIndexInSearchSet]

/-- Witness for C3: on a physical table, the public primary index is in
the search set even with every option unset. -/
theorem isIndexInSearchSet_spec_witness :
    isIndexInSearchSet ⟨[], true, [], []⟩ ⟨false, false, false⟩ ⟨true, false, false, 0⟩ = true :=
  (isIndexInSearchSet_spec ⟨[], true, [], []⟩ ⟨false, false, false⟩
    ⟨true, false, false, 0⟩).2 rfl rfl rfl rfl

/-- The opts-filtering loop of `ForEachIndex` is the plain slice loop on
the filtered slice. -/
theorem forEachIndexLoop_eq_filter (desc : TableDescriptor) (opts : IndexOpts)
    (slice : List Index) (f : Index → Option GoError) :
    ForEachIndexLoop desc opts slice f =
      forEachIndex (slice.filter (fun i => isIndexInSearchSet desc opts i)) f := by
  induction slice with
  | nil => rfl
  | cons idx rest ih =>
      by_cases h : isIndexInSearchSet desc opts idx
      · cases hf : f idx <;>
          simp [ForEachIndexLoop, forEachIndex, List.filter_cons, h, hf, ih]
      · simp [ForEachIndexLoop, List.filter_cons, h, ih]

/-- A callback that never errs: the loop returns nil and visits the
whole slice. -/
theorem forEachIndex_clean (slice : List Index) (f : Index → Option GoError)
    (h : ∀ j ∈ slice, f j = none) :
    forEachIndex slice f = none ∧ forEachIndexVisited slice f = slice := by
  induction slice with
  | nil => simp [forEachIndex, forEachIndexVisited]
  | cons a rest ih =>
      have ha : f a = none := h a (by simp)
      have hr : ∀ j ∈ rest, f j = none := fun j hj => h j (by simp [hj])
      simp [forEachIndex, forEachIndexVisited, ha, (ih hr).1, (ih hr).2]

/-- First non-nil callback result decides the loop: visits stop right
after that element, the sentinel maps to nil and anything else is
propagated. -/
theorem forEachIndex_stops (pre : List Index) (idx : Index) (post : List Index)
    (f : Index → Option GoError) (hpre : ∀ j ∈ pre, f j = none) (e : GoError)
    (he : f idx = some e) :
    forEachIndex (pre ++ idx :: post) f = (if iterutilDone e then none else some e) ∧
    forEachIndexVisited (pre ++ idx :: post) f = pre ++ [idx] := by
  induction pre with
  | nil => simp [forEachIndex, forEachIndexVisited, he]
  | cons a rest ih =>
      have ha : f a = none := hpre a (by simp)
      have hr : ∀ j ∈ rest, f j = none := fun j hj => hpre j (by simp [hj])
      simp [forEachIndex, forEachIndexVisited, ha, (ih hr).1, (ih hr).2]

/-- C2: `ForEachIndex` iterates the search-set-filtered canonical slice;
the slice loop used by every per-view `ForEach` variant visits elements
in order, stops right after an element on which the callback returns the
early-termination sentinel and reports success, and aborts with the
error on any other callback error. -/
theorem forEachIndex_spec (desc : TableDescriptor) (opts : IndexOpts)
    (slice : List Index) (f : Index → Option GoError) :
    (ForEachIndex desc opts f =
      forEachIndex (desc.allIndexes.filter (fun i => isIndexInSearchSet desc opts i)) f) ∧
    ((∀ j ∈ slice, f j = none) →
      forEachIndex slice f = none ∧ forEachIndexVisited slice f = slice) ∧
    (∀ pre idx post, slice = pre ++ idx :: post → (∀ j ∈ pre, f j = none) →
      (f idx = some GoError.stopIteration →
        forEachIndex slice f = none ∧ forEachIndexVisited slice f = pre ++ [idx]) ∧
      (∀ c, f idx = some (GoError.failure c) →
        forEachIndex slice f = some (GoError.failure c) ∧
        forEachIndexVisited slice f = pre ++ [idx])) := by
  refine ⟨forEachIndexLoop_eq_filter desc opts desc.allIndexes f,
    forEachIndex_clean slice f, ?_⟩
  rintro pre idx post rfl hpre
  constructor
  · intro hstop
    simpa [iterutilDone] using forEachIndex_stops pre idx post f hpre _ hstop
  · intro c hc
    simpa [iterutilDone] using forEachIndex_stops pre idx post f hpre _ hc

/-- Witness for C2: on `[a, b, c]` with a visitor signalling early stop
on `b`, traversal visits exactly `[a, b]` and returns nil. -/
theorem forEachIndex_spec_witness :
    forEachIndex
        [⟨false, false, false, 1⟩, ⟨false, false, false, 2⟩, ⟨false, false, false, 3⟩]
        (fun i => if i.id = 2 then some GoError.stopIteration else none) = none ∧
    forEachIndexVisited
        [⟨false, false, false, 1⟩, ⟨false, false, false, 2⟩, ⟨false, false, false, 3⟩]
        (fun i => if i.id = 2 then some GoError.stopIteration else none) =
      [⟨false, false, false, 1⟩, ⟨false, false, false, 2⟩] :=
  ((forEachIndex_spec ⟨[], true, [], []⟩ ⟨true, true, true⟩
      [⟨false, false, false, 1⟩, ⟨false, false, false, 2⟩, ⟨false, false, false, 3⟩]
      (fun i => if i.id = 2 then some GoError.stopIteration else none)).2.2
    [⟨false, false, false, 1⟩] ⟨false, false, false, 2⟩ [⟨false, false, false, 3⟩]
    rfl (by decide)).1 (by decide)

/-- The plain slice search is first-match on the filtered slice. -/
theorem findIndex_eq_head (slice : List Index) (test : Index → Bool) :
    findIndex slice test = (slice.filter test).head? := by
  induction slice with
  | nil => rfl
  | cons a rest ih =>
      by_cases h : test a <;> simp [findIndex, List.filter_cons, h, ih]

/-- The opts-filtering loop of `FindIndex` is first-match on the
search-set-and-test-filtered slice. -/
theorem findIndexLoop_eq_head (desc : TableDescriptor) (opts : IndexOpts)
    (slice : List Index) (test : Index → Bool) :
    FindIndexLoop desc opts slice test =
      (slice.filter (fun i => isIndexInSearchSet desc opts i && test i)).head? := by
  induction slice with
  | nil => rfl
  | cons a rest ih =>
      by_cases h : isIndexInSearchSet desc opts a
      · by_cases ht : test a <;> simp [FindIndexLoop, List.filter_cons, h, ht, ih]
      · simp [FindIndexLoop, List.filter_cons, h, ih]

/-- C4: `FindIndex` returns the first index in canonical order that is in
the search set and passes the test, and `nil` when no such index exists;
the slice helper used by every per-view `Find` variant returns the first
element of its view passing the test. -/
theorem findIndex_spec (desc : TableDescriptor) (opts : IndexOpts)
    (slice : List Index) (test : Index → Bool) :
    (FindIndex desc opts test =
      (desc.allIndexes.filter (fun i => isIndexInSearchSet desc opts i && test i)).head?) ∧
    (findIndex slice test = (slice.filter test).head?) ∧
    ((∀ i ∈ desc.allIndexes, ¬(isIndexInSearchSet desc opts i = true ∧ test i = true)) →
      FindIndex desc opts test = none) := by
  refine ⟨findIndexLoop_eq_head desc opts desc.allIndexes test,
    findIndex_eq_head slice test, fun h => ?_⟩
  have hnil : desc.allIndexes.filter (fun i => isIndexInSearchSet desc opts i && test i) = [] := by
    rw [List.filter_eq_nil_iff]
    intro a ha
    have := h a ha
    simp only [Bool.and_eq_true]
    tauto
  show FindIndexLoop desc opts desc.allIndexes test = none
  rw [findIndexLoop_eq_head, hnil]
  rfl

/-- Witness for C4: a search set with no index passing the test yields
the nil sentinel. -/
theorem findIndex_spec_witness :
    FindIndex ⟨[⟨true, false, false, 1⟩], true, [], []⟩ ⟨true, true, true⟩
      (fun i => i.dropped) = none :=
  (findIndex_spec ⟨[⟨true, false, false, 1⟩], true, [], []⟩ ⟨true, true, true⟩ []
    (fun i => i.dropped)).2.2 (by decide)

/-- C6 (modelled from the spec): `IsMutation` true forces a valid
mutation id, `IsMutation` false forces the invalid sentinel, and a
public element carries no mutation sub-phase flag. -/
theorem elementStatus_invariants (e : ElementStatus) :
    (e.IsMutation = true → e.MutationID ≠ InvalidMutationID) ∧
    (e.IsMutation = false → e.MutationID = InvalidMutationID) ∧
    (e.Public = true → e.DeleteOnly = false ∧ e.WriteAndDeleteOnly = false ∧
      e.Backfilling = false ∧ e.Merging = false) := by
  cases e with
  | public =>
      simp [ElementStatus.IsMutation, ElementStatus.MutationID, ElementStatus.Public,
        ElementStatus.DeleteOnly, ElementStatus.WriteAndDeleteOnly,
        ElementStatus.Backfilling, ElementStatus.Merging, InvalidMutationID]
  | mutation j dir ph rb =>
      simp [ElementStatus.IsMutation, ElementStatus.MutationID, ElementStatus.Public,
        ElementStatus.DeleteOnly, ElementStatus.WriteAndDeleteOnly,
        ElementStatus.Backfilling, ElementStatus.Merging, InvalidMutationID]

/-- Witness for C6: a delete-only add mutation with job ordinal 0 has a
valid (non-sentinel) mutation id. -/
theorem elementStatus_invariants_witness :
    ElementStatus.MutationID
        (ElementStatus.mutation 0 MutationDirection.add MutationPhase.deleteOnly false)
      ≠ InvalidMutationID :=
  (elementStatus_invariants
    (ElementStatus.mutation 0 MutationDirection.add MutationPhase.deleteOnly false)).1 rfl

/-- A position `j` at which the walked list and the indexed list (read
at offset `i₀ + j`) disagree on the user-defined-type version. -/
def verMismatch (cols other : List Column) (i₀ j : Nat) : Prop :=
  ∃ a b, cols[j]? = some a ∧ other[i₀ + j]? = some b ∧
    a.typeMetaVersion ≠ b.typeMetaVersion

/-- Shifting a mismatch position across the head of the walked list. -/
theorem verMismatch_succ (c : Column) (rest other : List Column) (i₀ j : Nat) :
    verMismatch (c :: rest) other i₀ (j + 1) ↔ verMismatch rest other (i₀ + 1) j := by
  unfold verMismatch
  constructor
  · rintro ⟨a, b, ha, hb, hne⟩
    refine ⟨a, b, by simpa using ha, ?_, hne⟩
    rw [show i₀ + 1 + j = i₀ + (j + 1) from by omega]
    exact hb
  · rintro ⟨a, b, ha, hb, hne⟩
    refine ⟨a, b, by simpa using ha, ?_, hne⟩
    rw [show i₀ + (j + 1) = i₀ + 1 + j from by omega]
    exact hb

/-- A mismatch at position zero is exactly a version disagreement of the
two heads. -/
theorem verMismatch_zero_iff (c : Column) (rest other : List Column) (i₀ : Nat)
    (o : Column) (ho : other[i₀]? = some o) :
    verMismatch (c :: rest) other i₀ 0 ↔ c.typeMetaVersion ≠ o.typeMetaVersion := by
  unfold verMismatch
  constructor
  · rintro ⟨a, b, ha, hb, hne⟩
    rw [Nat.add_zero, ho] at hb
    simp only [List.getElem?_cons_zero, Option.some.injEq] at ha
    cases ha
    cases hb
    exact hne
  · intro hne
    exact ⟨c, o, by simp, by simpa using ho, hne⟩

/-- With agreeing heads, mismatches of the tail at the shifted offset
are exactly the mismatches of the whole lists. -/
theorem exists_verMismatch_cons (c : Column) (rest other : List Column) (i₀ : Nat)
    (o : Column) (ho : other[i₀]? = some o) (heq : c.typeMetaVersion = o.typeMetaVersion) :
    ((∃ j, verMismatch (c :: rest) other i₀ j) ↔ (∃ j, verMismatch rest other (i₀ + 1) j)) := by
  constructor
  · rintro ⟨j, hj⟩
    cases j with
    | zero => exact absurd ((verMismatch_zero_iff c rest other i₀ o ho).mp hj) (by simp [heq])
    | succ j => exact ⟨j, (verMismatch_succ c rest other i₀ j).mp hj⟩
  · rintro ⟨j, hj⟩
    exact ⟨j + 1, (verMismatch_succ c rest other i₀ j).mpr hj⟩

/-- No mismatch is reachable once the offset has run off the indexed
list. -/
theorem not_verMismatch_of_none (cols other : List Column) (i₀ : Nat)
    (hge : other.length ≤ i₀) : ¬∃ j, verMismatch cols other i₀ j := by
  rintro ⟨j, a, b, _, hb, _⟩
  rw [List.getElem?_eq_none (by omega)] at hb
  exact Option.noConfusion hb

/-- Full characterization of the `UserDefinedTypeColsHaveSameVersion`
loop: `some false` iff some position mismatches, `some true` iff no
position mismatches and the walked list fits in the indexed list,
`none` (a Go panic) iff no position mismatches and the indexed list is
too short. -/
theorem udtLoop_char (cols : List Column) : ∀ (other : List Column) (i₀ : Nat),
    i₀ ≤ other.length →
    (udtLoop cols other i₀ = some false ↔ ∃ j, verMismatch cols other i₀ j) ∧
    (udtLoop cols other i₀ = some true ↔
      (¬∃ j, verMismatch cols other i₀ j) ∧ i₀ + cols.length ≤ other.length) ∧
    (udtLoop cols other i₀ = none ↔
      (¬∃ j, verMismatch cols other i₀ j) ∧ other.length < i₀ + cols.length) := by
  induction cols with
  | nil =>
      intro other i₀ h
      have hno : ¬∃ j, verMismatch ([] : List Column) other i₀ j := by
        rintro ⟨j, a, b, ha, _, _⟩
        simp at ha
      refine ⟨by simp [udtLoop, hno], ?_, ?_⟩
      · exact ⟨fun _ => ⟨hno, h⟩, fun _ => rfl⟩
      · exact ⟨fun hc => Option.noConfusion hc,
          fun ⟨_, hlt⟩ => absurd h (by simp at hlt; omega)⟩
  | cons c rest ih =>
      intro other i₀ h
      rcases Nat.lt_or_ge i₀ other.length with hlt | hge
      · have ho : other[i₀]? = some other[i₀] := List.getElem?_eq_getElem hlt
        have hstep : udtLoop (c :: rest) other i₀ =
            if c.typeMetaVersion ≠ other[i₀].typeMetaVersion then some false
            else udtLoop rest other (i₀ + 1) := by
          simp only [udtLoop, ho]
        by_cases hne : c.typeMetaVersion = other[i₀].typeMetaVersion
        · have hrec := ih other (i₀ + 1) (by omega)
          have hex := exists_verMismatch_cons c rest other i₀ other[i₀] ho hne
          rw [hstep, if_neg (by simp [hne])]
          refine ⟨?_, ?_, ?_⟩
          · rw [hrec.1]
            exact hex.symm
          · rw [hrec.2.1]
            constructor
            · rintro ⟨hn, hl⟩
              exact ⟨fun hc => hn (hex.mp hc), by simp at hl ⊢; omega⟩
            · rintro ⟨hn, hl⟩
              exact ⟨fun hc => hn (hex.mpr hc), by simp at hl ⊢; omega⟩
          · rw [hrec.2.2]
            constructor
            · rintro ⟨hn, hl⟩
              exact ⟨fun hc => hn (hex.mp hc), by simp at hl ⊢; omega⟩
            · rintro ⟨hn, hl⟩
              exact ⟨fun hc => hn (hex.mpr hc), by simp at hl ⊢; omega⟩
        · have hex0 : ∃ j, verMismatch (c :: rest) other i₀ j :=
            ⟨0, (verMismatch_zero_iff c rest other i₀ other[i₀] ho).mpr hne⟩
          rw [hstep, if_pos (by simpa using hne)]
          refine ⟨by simp [hex0], ?_, ?_⟩
          · exact ⟨fun hc => by simp at hc, fun ⟨hn, _⟩ => absurd hex0 hn⟩
          · exact ⟨fun hc => Option.noConfusion hc, fun ⟨hn, _⟩ => absurd hex0 hn⟩
      · have ho : other[i₀]? = none := List.getElem?_eq_none hge
        have hstep : udtLoop (c :: rest) other i₀ = none := by
          simp only [udtLoop, ho]
        have hno := not_verMismatch_of_none (c :: rest) other i₀ hge
        refine ⟨by simp [hstep, hno], ?_, ?_⟩
        · rw [hstep]
          exact ⟨fun hc => Option.noConfusion hc,
            fun ⟨_, hl⟩ => absurd hl (by simp; omega)⟩
        · rw [hstep]
          exact ⟨fun _ => ⟨hno, by simp; omega⟩, fun _ => rfl⟩

/-- C5: when the second descriptor's user-defined-type column list is at
least as long as the first's (as for two snapshots of the same table at
the same version), the comparison yields false exactly when some
position of the first list carries a different type-metadata version
than the second, and true exactly when every position agrees. -/
theorem userDefinedTypeColsHaveSameVersion_spec (descA descB : TableDescriptor)
    (h : descA.userDefinedTypeColumns.length ≤ descB.userDefinedTypeColumns.length) :
    (UserDefinedTypeColsHaveSameVersion descA descB = some false ↔
      ∃ i, i < descA.userDefinedTypeColumns.length ∧
        verAt descA.userDefinedTypeColumns i ≠ verAt descB.userDefinedTypeColumns i) ∧
    (UserDefinedTypeColsHaveSameVersion descA descB = some true ↔
      ∀ i, i < descA.userDefinedTypeColumns.length →
        verAt descA.userDefinedTypeColumns i = verAt descB.userDefinedTypeColumns i) := by
  have hchar := udtLoop_char descA.userDefinedTypeColumns descB.userDefinedTypeColumns 0
    (by omega)
  have hbridge : ∀ i, verMismatch descA.userDefinedTypeColumns descB.userDefinedTypeColumns 0 i ↔
      (i < descA.userDefinedTypeColumns.length ∧
        verAt descA.userDefinedTypeColumns i ≠ verAt descB.userDefinedTypeColumns i) := by
    intro i
    unfold verMismatch verAt
    constructor
    · rintro ⟨a, b, ha, hb, hne⟩
      have hi : i < descA.userDefinedTypeColumns.length := by
        by_contra hcon
        rw [List.getElem?_eq_none (by omega)] at ha
        exact Option.noConfusion ha
      refine ⟨hi, ?_⟩
      rw [Nat.zero_add] at hb
      rw [ha, hb]
      simpa using hne
    · rintro ⟨hi, hne⟩
      have hiB : i < descB.userDefinedTypeColumns.length := by omega
      rw [List.getElem?_eq_getElem hi, List.getElem?_eq_getElem hiB] at hne
      refine ⟨descA.userDefinedTypeColumns[i], descB.userDefinedTypeColumns[i],
        List.getElem?_eq_getElem hi, ?_, by simpa using hne⟩
      rw [Nat.zero_add]
      exact List.getElem?_eq_getElem hiB
  constructor
  · rw [show UserDefinedTypeColsHaveSameVersion descA descB =
        udtLoop descA.userDefinedTypeColumns descB.userDefinedTypeColumns 0 from rfl,
      hchar.1]
    constructor
    · rintro ⟨j, hj⟩
      exact ⟨j, (hbridge j).mp hj⟩
    · rintro ⟨i, hi, hne⟩
      exact ⟨i, (hbridge i).mpr ⟨hi, hne⟩⟩
  · rw [show UserDefinedTypeColsHaveSameVersion descA descB =
        udtLoop descA.userDefinedTypeColumns descB.userDefinedTypeColumns 0 from rfl,
      hchar.2.1]
    constructor
    · rintro ⟨hn, _⟩ i hi
      by_contra hne
      exact hn ⟨i, (hbridge i).mpr ⟨hi, hne⟩⟩
    · intro hall
      refine ⟨?_, by omega⟩
      rintro ⟨j, hj⟩
      obtain ⟨hlt, hne⟩ := (hbridge j).mp hj
      exact hne (hall j hlt)

/-- Witness for C5: two one-column descriptors whose single user-defined
type versions differ compare to false. -/
theorem userDefinedTypeColsHaveSameVersion_spec_witness :
    UserDefinedTypeColsHaveSameVersion
        ⟨[], true, [⟨false, false, false, false, false, true, false, 1, 0, 1⟩], []⟩
        ⟨[], true, [⟨false, false, false, false, false, true, false, 1, 0, 2⟩], []⟩ =
      some false :=
  (userDefinedTypeColsHaveSameVersion_spec
      ⟨[], true, [⟨false, false, false, false, false, true, false, 1, 0, 1⟩], []⟩
      ⟨[], true, [⟨false, false, false, false, false, true, false, 1, 0, 2⟩], []⟩
      (by decide)).1.mpr ⟨0, by decide, by decide⟩

/-- The loop never reads the indexed list beyond the walked list's
length: truncating the indexed list there leaves the result unchanged. -/
theorem udtLoop_take (cols : List Column) : ∀ (other : List Column) (i₀ : Nat),
    udtLoop cols other i₀ = udtLoop cols (other.take (i₀ + cols.length)) i₀ := by
  induction cols with
  | nil => intro other i₀; rfl
  | cons c rest ih =>
      intro other i₀
      have htake : (other.take (i₀ + (c :: rest).length))[i₀]? = other[i₀]? := by
        rw [List.getElem?_take]
        simp
      cases ho : other[i₀]? with
      | none => simp only [udtLoop, htake, ho]
      | some o =>
          simp only [udtLoop, htake, ho]
          by_cases hne : c.typeMetaVersion ≠ o.typeMetaVersion
          · simp [hne]
          · rw [if_neg hne, if_neg hne]
            rw [show i₀ + (c :: rest).length = (i₀ + 1) + rest.length from by
              simp [List.length_cons]; omega]
            exact ih other (i₀ + 1)

/-- C10: the comparison indexes the second list by positions of the
first, so it is panic-free exactly when the second list is at least as
long; when the second is shorter but agrees everywhere it can compare,
the code panics instead of returning; and trailing extra columns of the
second descriptor are never read. -/
theorem userDefinedTypeColsHaveSameVersion_asymmetry (descA descB : TableDescriptor) :
    (descA.userDefinedTypeColumns.length ≤ descB.userDefinedTypeColumns.length →
      (UserDefinedTypeColsHaveSameVersion descA descB).isSome = true) ∧
    (descB.userDefinedTypeColumns.length < descA.userDefinedTypeColumns.length →
      (∀ j, j < descB.userDefinedTypeColumns.length →
        verAt descA.userDefinedTypeColumns j = verAt descB.userDefinedTypeColumns j) →
      UserDefinedTypeColsHaveSameVersion descA descB = none) ∧
    (UserDefinedTypeColsHaveSameVersion descA descB =
      UserDefinedTypeColsHaveSameVersion descA
        ⟨descB.allIndexes, descB.isPhysicalTable,
          descB.userDefinedTypeColumns.take descA.userDefinedTypeColumns.length,
          descB.allMutations⟩) := by
  have hchar := udtLoop_char descA.userDefinedTypeColumns descB.userDefinedTypeColumns 0
    (by omega)
  refine ⟨?_, ?_, ?_⟩
  · intro h
    rcases hres : UserDefinedTypeColsHaveSameVersion descA descB with _ | b
    · exact absurd (hchar.2.2.mp hres).2 (by omega)
    · rfl
  · intro hshort hagree
    apply hchar.2.2.mpr
    refine ⟨?_, by omega⟩
    rintro ⟨j, a, b, ha, hb, hne⟩
    have hjB : j < descB.userDefinedTypeColumns.length := by
      by_contra hcon
      rw [Nat.zero_add] at hb
      rw [List.getElem?_eq_none (by omega)] at hb
      exact Option.noConfusion hb
    have := hagree j hjB
    rw [Nat.zero_add] at hb
    unfold verAt at this
    rw [ha, hb] at this
    simp at this
    exact hne this
  · have htake := udtLoop_take descA.userDefinedTypeColumns descB.userDefinedTypeColumns 0
    rw [Nat.zero_add] at htake
    exact htake

/-- Witness for C10: a comparison where the second list is longer is
panic-free. -/
theorem userDefinedTypeColsHaveSameVersion_asymmetry_witness :
    (UserDefinedTypeColsHaveSameVersion
        ⟨[], true, [], []⟩
        ⟨[], true, [⟨false, false, false, false, false, true, false, 1, 0, 2⟩], []⟩).isSome =
      true :=
  (userDefinedTypeColsHaveSameVersion_asymmetry
      ⟨[], true, [], []⟩
      ⟨[], true, [⟨false, false, false, false, false, true, false, 1, 0, 2⟩], []⟩).1
    (by decide)

/-- C8: `HasConcurrentSchemaChanges` holds iff the descriptor's mutation
sequence is non-empty. -/
theorem hasConcurrentSchemaChanges_iff (table : TableDescriptor) :
    HasConcurrentSchemaChanges table = true ↔ table.allMutations ≠ [] := by
  simp [HasConcurrentSchemaChanges, List.length_pos]

/-- C7 (modelled from the spec): in the canonical orderings, the primary
index sits at ordinal 0, the public non-primary indexes occupy the
contiguous block `[1, 1+k)` in order, every mutation index sits at
ordinal `1+k` plus its queue position, and analogously public columns
occupy `[0, n)` with mutation columns appended after in queue order. -/
theorem ordinal_contiguity (d : RawTableDescriptor) :
    ((d.AllIndexes)[0]? = some d.primaryIndex) ∧
    (d.AllIndexes.length =
      1 + d.publicNonPrimaryIndexes.length + d.mutationIndexes.length) ∧
    (∀ i, i < d.publicNonPrimaryIndexes.length →
      (d.AllIndexes)[1 + i]? = (d.publicNonPrimaryIndexes)[i]?) ∧
    (∀ j, (d.AllIndexes)[1 + d.publicNonPrimaryIndexes.length + j]? =
      (d.mutationIndexes)[j]?) ∧
    (d.AllColumns.length = d.publicColumns.length + d.mutationColumns.length) ∧
    (∀ i, i < d.publicColumns.length → (d.AllColumns)[i]? = (d.publicColumns)[i]?) ∧
    (∀ j, (d.AllColumns)[d.publicColumns.length + j]? = (d.mutationColumns)[j]?) := by
  obtain ⟨p, pub, muts, pcols, mcols⟩ := d
  refine ⟨?_, ?_, ?_, ?_, ?_, ?_, ?_⟩
  · simp [RawTableDescriptor.AllIndexes]
  · simp [RawTableDescriptor.AllIndexes]
    omega
  · intro i hi
    rw [show 1 + i = i + 1 from by omega]
    simp only [RawTableDescriptor.AllIndexes, List.getElem?_cons_succ]
    rw [List.getElem?_append]
    simp [hi]
  · intro j
    rw [show 1 + pub.length + j = (pub.length + j) + 1 from by omega]
    simp only [RawTableDescriptor.AllIndexes, List.getElem?_cons_succ]
    rw [List.getElem?_append]
    simp
  · simp [RawTableDescriptor.AllColumns]
  · intro i hi
    simp only [RawTableDescriptor.AllColumns]
    rw [List.getElem?_append]
    simp [hi]
  · intro j
    simp only [RawTableDescriptor.AllColumns]
    rw [List.getElem?_append]
    simp

/-- Witness for C7: in a one-public-one-mutation index layout, ordinal 1
holds the first public non-primary index. -/
theorem ordinal_contiguity_witness :
    ((RawTableDescriptor.AllIndexes
        ⟨⟨true, false, false, 1⟩, [⟨false, false, false, 2⟩], [⟨false, true, false, 3⟩],
          [], []⟩)[1 + 0]? =
      ([⟨false, false, false, 2⟩] : List Index)[0]?) :=
  (ordinal_contiguity
      ⟨⟨true, false, false, 1⟩, [⟨false, false, false, 2⟩], [⟨false, true, false, 3⟩],
        [], []⟩).2.2.1 0 (by decide)

/-- List `lookup` finds the paired value when the key list has no
duplicates. -/
theorem lookup_of_nodup (l : List (Nat × Nat)) (hn : (l.map Prod.fst).Nodup)
    (k v : Nat) (hm : (k, v) ∈ l) : l.lookup k = some v := by
  induction l with
  | nil => simp at hm
  | cons p t ih =>
      obtain ⟨k1, v1⟩ := p
      rw [List.map_cons] at hn
      obtain ⟨hk1, hnt⟩ := List.nodup_cons.mp hn
      rcases List.mem_cons.mp hm with heq | hmem
      · simp only [Prod.mk.injEq] at heq
        obtain ⟨rfl, rfl⟩ := heq
        simp [List.lookup]
      · have hk : k ≠ k1 := by
          rintro rfl
          exact hk1 (List.mem_map.mpr ⟨(k, v), hmem, rfl⟩)
        have hbeq : (k == k1) = false := by simp [hk]
        simp only [List.lookup, hbeq]
        exact ih hnt hmem

/-- List `lookup` misses keys absent from the key list. -/
theorem lookup_none_of_not_mem (l : List (Nat × Nat)) (k : Nat)
    (h : k ∉ l.map Prod.fst) : l.lookup k = none := by
  induction l with
  | nil => rfl
  | cons p t ih =>
      obtain ⟨k1, v1⟩ := p
      simp only [List.map_cons, List.mem_cons, not_or] at h
      have hbeq : (k == k1) = false := by simp [h.1]
      simp only [List.lookup, hbeq]
      exact ih h.2

/-- Unfolding the `ColumnIDToOrdinalMap` fold: entries are the reversed
id-to-ordinal pairs prepended to the seed. -/
theorem columnIDToOrdinalMap_entries (columns : List Column) : ∀ (m : TableColMap),
    (columns.foldl (fun m col => m.Set col.id col.ordinal) m).entries =
      (columns.map (fun c => (c.id, c.ordinal))).reverse ++ m.entries := by
  induction columns with
  | nil => intro m; simp
  | cons c rest ih =>
      intro m
      simp only [List.foldl_cons, List.map_cons, List.reverse_cons]
      rw [ih]
      simp [TableColMap.Set]

/-- C9: for a column list with distinct ids, the id-to-ordinal map sends
every listed column's id to that column's ordinal and no other id to
anything. -/
theorem columnIDToOrdinalMap_spec (columns : List Column)
    (hn : (columns.map Column.id).Nodup) :
    (∀ col ∈ columns, (ColumnIDToOrdinalMap columns).Get col.id = some col.ordinal) ∧
    (∀ i, i ∉ columns.map Column.id → (ColumnIDToOrdinalMap columns).Get i = none) := by
  have hent : (ColumnIDToOrdinalMap columns).entries =
      (columns.map (fun c => (c.id, c.ordinal))).reverse := by
    have h0 := columnIDToOrdinalMap_entries columns ⟨[]⟩
    simpa [ColumnIDToOrdinalMap] using h0
  have hkeys : ((columns.map (fun c => (c.id, c.ordinal))).reverse.map Prod.fst).Nodup := by
    rw [List.map_reverse, List.nodup_reverse, List.map_map]
    exact hn
  constructor
  · intro col hcol
    unfold TableColMap.Get
    rw [hent]
    apply lookup_of_nodup _ hkeys
    rw [List.mem_reverse]
    exact List.mem_map.mpr ⟨col, hcol, rfl⟩
  · intro i hi
    unfold TableColMap.Get
    rw [hent]
    apply lookup_none_of_not_mem
    rw [List.map_reverse, List.mem_reverse, List.map_map]
    exact hi

/-- Witness for C9: a single column with id 7 and ordinal 0 maps 7 to 0. -/
theorem columnIDToOrdinalMap_spec_witness :
    (ColumnIDToOrdinalMap
        [⟨false, false, false, false, false, true, false, 7, 0, 0⟩]).Get 7 = some 0 :=
  (columnIDToOrdinalMap_spec
      [⟨false, false, false, false, false, true, false, 7, 0, 0⟩] (by decide)).1
    ⟨false, false, false, false, false, true, false, 7, 0, 0⟩ (by decide)

end TableElements
